import Mathlib

/-!
Shallow embedding of `run.py` from msquic-build: the archive-normalization
helpers (`_is_single_dir`, `_extractzip`, `extract`), the `versioned`
step-cache decorator, `git_clone_shallow`, and `download`, together with
proofs of the specified properties.
-/

namespace MsquicBuild

/-- An archive entry as seen by `_is_single_dir` and extraction:
a `zipfile.ZipInfo` or `tarfile.TarInfo` reduced to the fields the code
reads (`filename` resp. `name`, `is_dir()`, `external_attr`, and the
stored byte content). -/
structure Entry where
  filename : String
  isDir : Bool
  externalAttr : Nat
  content : String
deriving DecidableEq

/-- Python `name.rstrip('/')`: drop every trailing slash. -/
def rstripSlashes (s : String) : String :=
  String.mk ((s.data.reverse.dropWhile (fun c => c == '/')).reverse)

/-- Python `str.find(c)`: index of the first occurrence of the character,
`none` standing for `-1`. -/
def findChar (c : Char) : List Char → Option Nat
  | [] => none
  | a :: l => if a == c then some 0 else (findChar c l).map (fun n => n + 1)

/-- One loop iteration of `_is_single_dir`: the top-level segment this entry
contributes (`dir` in the source), or `none` when the entry is a bare file
sitting at the archive root (the early `return None` of the source). -/
def entryDir (info : Entry) : Option String :=
  let stripped := rstripSlashes info.filename
  match findChar '/' stripped.data with
  | none => if info.isDir then some stripped else none
  | some n => some (String.mk (stripped.data.take n))

/-- The `for` loop of `_is_single_dir`, carrying the running `dirname`. -/
def isSingleDirAux : Option String → List Entry → Option String
  | dirname, [] => dirname
  | dirname, info :: rest =>
    match entryDir info with
    | none => none
    | some dir =>
      if dirname ≠ none ∧ dirname ≠ some dir then none
      else isSingleDirAux (some dir) rest

/-- `_is_single_dir` from `run.py` (also `is_single_dir_tar` /
`is_single_dir_zip`, whose accessor lambdas are inlined in `entryDir`). -/
def is_single_dir (infos : List Entry) : Option String :=
  isSingleDirAux none infos

/-- Python `s.split('/')`: split at every slash, keeping empty pieces
(`acc` accumulates the current piece in reverse). -/
def splitSlashAux : List Char → List Char → List String
  | acc, [] => [String.mk acc.reverse]
  | acc, c :: cs =>
    if c == '/' then String.mk acc.reverse :: splitSlashAux [] cs
    else splitSlashAux (c :: acc) cs

def splitSlash (s : String) : List String :=
  splitSlashAux [] s.data

/-- Python `s.endswith(suffix)`. -/
def pyEndsWith (s suffix : String) : Bool :=
  suffix.data.isSuffixOf s.data

/-- Python `s.strip()` with no argument: drop leading and trailing
whitespace. -/
def pyStrip (s : String) : String :=
  String.mk (((s.data.dropWhile Char.isWhitespace).reverse.dropWhile Char.isWhitespace).reverse)

/-- Spec side: the top-level path segment of an entry name — the text before
the first separator, after discarding the trailing separator that directory
entries carry in the zip representation. -/
def topSegment (name : String) : String :=
  String.mk ((rstripSlashes name).data.takeWhile (fun c => c != '/'))

/-- Spec side: the entry sits directly at the archive root (its name has no
separator at all). -/
def isRootLevel (name : String) : Bool :=
  decide ('/' ∉ (rstripSlashes name).data)

/-! ## Filesystem model

Paths are lists of segments (absolute, from the filesystem root); a
filesystem is an association list from paths to nodes.  Nodes carry the
POSIX pieces the code manipulates: regular-file content and mode bits,
directories, and symbolic links with their stored target string. -/

abbrev Path := List String

inductive Node
  | file (content : String) (mode : Nat)
  | dir
  | symlink (target : String)
deriving DecidableEq

abbrev FS := List (Path × Node)

def lookupFS (fs : FS) (p : Path) : Option Node :=
  (fs.find? (fun kv => kv.1 == p)).map (fun kv => kv.2)

/-- `os.remove` / overwrite helper: drop the binding at `p`. -/
def eraseKeyFS (fs : FS) (p : Path) : FS :=
  fs.filter (fun kv => kv.1 != p)

def insertFS (fs : FS) (p : Path) (v : Node) : FS :=
  (p, v) :: eraseKeyFS fs p

/-- `rm_rf`: remove the path and everything below it. -/
def rmRfFS (fs : FS) (p : Path) : FS :=
  fs.filter (fun kv => !(p.isPrefixOf kv.1))

/-- `os.replace(src, dst)` on a directory tree: every path below `src` is
re-rooted below `dst`. -/
def renameFS (fs : FS) (src dst : Path) : FS :=
  fs.map (fun kv =>
    if src.isPrefixOf kv.1 then (dst ++ kv.1.drop src.length, kv.2) else kv)

/-- Split an archive-entry name (or a link-target string) into path
segments; empty segments (leading, trailing or doubled separators) vanish,
matching how the extraction primitives place entries on disk. -/
def toSegs (s : String) : Path :=
  (splitSlash s).filter (fun seg => seg != "")

/-- Resolve a possibly-relative textual path against a working directory,
as the `os.path.exists(src)` call does under `cd(os.path.dirname(filepath))`.
(`..` components are not modelled; the code never produces them.) -/
def resolveRel (cwd : Path) (s : String) : Path :=
  match s.data with
  | '/' :: _ => toSegs s
  | _ => cwd ++ toSegs s

/-- Follow symbolic links until a non-link node (as `os.path.exists` and
`os.chmod` do), with fuel to rule out link cycles. -/
def resolveLink (fs : FS) : Nat → Path → Option Path
  | 0, _ => none
  | fuel + 1, p =>
    match lookupFS fs p with
    | some (Node.symlink t) => resolveLink fs fuel (resolveRel p.dropLast t)
    | some _ => some p
    | none => none

/-- `os.path.exists`: true when the path resolves (through symlinks) to an
existing node; dangling links and absent paths give false. -/
def existsFS (fs : FS) (p : Path) : Bool :=
  (resolveLink fs (fs.length + 1) p).isSome

def chmodNode (n : Node) (m : Nat) : Node :=
  match n with
  | Node.file c _ => Node.file c m
  | other => other

/-- `os.chmod`: set the permission bits of the node the path resolves to
(mode is meaningful only on regular files in this model). -/
def chmodFS (fs : FS) (p : Path) (m : Nat) : FS :=
  match resolveLink fs (fs.length + 1) p with
  | some q => fs.map (fun kv => if kv.1 == q then (kv.1, chmodNode kv.2 m) else kv)
  | none => fs

/-- `TarFile.extractall` / `ZipFile.extractall`: place every entry verbatim
below `base`.  (Implicit parent-directory creation is not tracked; no claim
inspects intermediate directories.) -/
def extractallFS (fs : FS) (base : Path) (entries : List Entry) : FS :=
  entries.foldl
    (fun acc e =>
      if e.isDir then insertFS acc (base ++ toSegs e.filename) Node.dir
      else insertFS acc (base ++ toSegs e.filename) (Node.file e.content 0))
    fs

/-- The body of the post-processing loop of `_extractzip` for one `info`
(the non-Windows branch): detect symlink-flagged entries by their stored
mode, replace the extracted placeholder file by a real symbolic link when
the target exists, and apply the stored permission bits to whatever still
exists at the entry's path. -/
def processEntry (base : Path) (fs : FS) (info : Entry) : FS :=
  if info.isDir then fs
  else
    let filepath := base ++ toSegs info.filename
    let mod := info.externalAttr >>> 16
    let fs1 :=
      if mod &&& 0o120000 == 0o120000 then
        match lookupFS fs filepath with
        | some (Node.file src _) =>
          let fs2 := eraseKeyFS fs filepath
          if existsFS fs2 (resolveRel filepath.dropLast src) then
            insertFS fs2 filepath (Node.symlink src)
          else fs2
        | _ => fs
      else fs
    if existsFS fs1 filepath then chmodFS fs1 filepath (mod &&& 0o777) else fs1

/-- `_extractzip` from `run.py` (non-Windows): `extractall` followed by the
per-entry mode/symlink post-processing loop. -/
def extractzip (fs : FS) (base : Path) (entries : List Entry) : FS :=
  entries.foldl (processEntry base) (extractallFS fs base entries)

/-- The tar+gzip branch of `extract`. -/
def extractTarGz (fs : FS) (entries : List Entry) (output_dir : Path)
    (output_dirname : String) : FS :=
  let path := output_dir ++ [output_dirname]
  let fs1 := rmRfFS fs path
  match is_single_dir entries with
  | none => extractallFS (insertFS fs1 path Node.dir) path entries
  | some d =>
    let path2 := output_dir ++ [d]
    let fs2 := rmRfFS fs1 path2
    let fs3 := extractallFS fs2 output_dir entries
    if path == path2 then fs3 else renameFS fs3 path2 path

/-- The zip branch of `extract`. -/
def extractZipArc (fs : FS) (entries : List Entry) (output_dir : Path)
    (output_dirname : String) : FS :=
  let path := output_dir ++ [output_dirname]
  let fs1 := rmRfFS fs path
  match is_single_dir entries with
  | none => extractzip (insertFS fs1 path Node.dir) path entries
  | some d =>
    let path2 := output_dir ++ [d]
    let fs2 := rmRfFS fs1 path2
    let fs3 := extractzip fs2 output_dir entries
    if path == path2 then fs3 else renameFS fs3 path2 path

/-- `extract` from `run.py`.  `entries` stands for the member list the code
reads from the opened archive file.  The second component is the raised
exception message (`none` when no exception is raised); the first component
is the filesystem after the call, unchanged when the format is unsupported
because the `raise` happens before any `rm_rf`. -/
def extract (fs : FS) (file : String) (filetype : Option String)
    (entries : List Entry) (output_dir : Path) (output_dirname : String) :
    FS × Option String :=
  if filetype == some "gzip" || pyEndsWith file ".tar.gz" then
    (extractTarGz fs entries output_dir output_dirname, none)
  else if filetype == some "zip" || pyEndsWith file ".zip" then
    (extractZipArc fs entries output_dir output_dirname, none)
  else
    (fs, some "file should end with .tar.gz or .zip")

/-! ## The `versioned` decorator -/

/-- `versioned(func)` from `run.py`, as a transition on the marker-file
state.  `marker` is the content of `version_file` (`none` when the file is
absent), `ignoreVersion` the `ignore_version` kwarg, and `stepResult` the
outcome the wrapped `func` would produce if invoked.  Returns the marker
content after the call, whether `func` was invoked, and the propagated
outcome (`none` when the call returned early without invoking `func`). -/
def versionedRun {E R : Type} (version : String) (marker : Option String)
    (ignoreVersion : Bool) (stepResult : Except E R) :
    Option String × Bool × Option (Except E R) :=
  let marker1 := if ignoreVersion then none else marker
  let skip :=
    match marker1 with
    | some ver => pyStrip ver == pyStrip version
    | none => false
  if skip then (marker1, false, none)
  else
    match stepResult with
    | Except.error e => (marker1, true, some (Except.error e))
    | Except.ok r => (some version, true, some (Except.ok r))

/-! ## `git_clone_shallow` -/

inductive ShellCmd
  | rmRf (dir : Path)
  | mkdirP (dir : Path)
  | git (cwd : Path) (args : List String)
deriving DecidableEq

/-- `git_clone_shallow` from `run.py`, as the exact sequence of shell-level
operations it performs (the `git` commands run under `cd(dir)`). -/
def git_clone_shallow (url hash : String) (dir : Path) : List ShellCmd :=
  [ShellCmd.rmRf dir, ShellCmd.mkdirP dir,
   ShellCmd.git dir ["init"],
   ShellCmd.git dir ["remote", "add", "origin", url],
   ShellCmd.git dir ["fetch", "--depth=1", "origin", hash],
   ShellCmd.git dir ["reset", "--hard", "FETCH_HEAD"]]

/-- The state of the checkout directory `dir`: `none` when the directory
does not exist. -/
structure GitDir where
  initialized : Bool
  remotes : List (String × String)
  objects : List String
  fetchHead : Option String
  worktree : Option String
deriving DecidableEq

/-- Modelled from the spec: the semantics of the external `git` tool and of
the directory operations, which are not part of this repository (`run.py`
only issues the commands).  Per the spec: `rm_rf` destroys the directory,
`mkdir_p` recreates it empty, `git init` initializes an empty repository,
`git remote add` registers a remote, `git fetch --depth=1 origin h` fetches
exactly the single commit object `h` (no ancestor history) and records it
as `FETCH_HEAD`, and `git reset --hard FETCH_HEAD` points the working tree
at that commit. -/
def gitStep (dir : Path) (st : Option GitDir) : ShellCmd → Option GitDir
  | ShellCmd.rmRf d => if d == dir then none else st
  | ShellCmd.mkdirP d =>
    if d == dir then
      match st with
      | none => some ⟨false, [], [], none, none⟩
      | some g => some g
    else st
  | ShellCmd.git cwd args =>
    if cwd == dir then
      match st, args with
      | some g, ["init"] => some { g with initialized := true }
      | some g, ["remote", "add", name, url] =>
        some { g with remotes := g.remotes ++ [(name, url)] }
      | some g, ["fetch", "--depth=1", remote, hash] =>
        if (g.remotes.lookup remote).isSome then
          some { g with objects := [hash], fetchHead := some hash }
        else st
      | some g, ["reset", "--hard", "FETCH_HEAD"] =>
        match g.fetchHead with
        | some h => some { g with worktree := some h }
        | none => st
      | _, _ => st
    else st

def gitRun (dir : Path) (st : Option GitDir) (cmds : List ShellCmd) : Option GitDir :=
  cmds.foldl (gitStep dir) st

/-! ## `download` -/

/-- The characters after the first `://`, `none` when there is none. -/
def afterScheme : List Char → Option (List Char)
  | [] => none
  | ':' :: '/' :: '/' :: rest => some rest
  | _ :: rest => afterScheme rest

/-- Modelled from the spec: `urllib.parse.urlparse(url).path` (the URL
layer is the Python standard library, not repository code).  For
`scheme://host/rest` URLs the path is everything from the first slash after
the host; a URL with no scheme is all path.  Query and fragment parts are
not modelled. -/
def urlparse_path (url : String) : String :=
  match afterScheme url.data with
  | none => url
  | some rest => String.mk (rest.dropWhile (fun c => c != '/'))

/-- The `output_path` computation at the top of `download`
(`os.path.join` modelled as slash concatenation). -/
def download_output_path (url : String) (output_dir : Option String)
    (filename : Option String) : String :=
  let op :=
    match filename with
    | none => (splitSlash (urlparse_path url)).getLastD ""
    | some f => f
  match output_dir with
  | none => op
  | some d => d ++ "/" ++ op

/-- `download` from `run.py`, over the set of existing file paths.  The
network fetch (`curl`/`wget`) is an external collaborator: `fetchOk` tells
whether it succeeds, and `leftoverOnFailure` — whether a half-written file is
left at `output_path` when it fails.  Returns the resulting file set,
whether the fetch was invoked, and `some path` for a normal return versus
`none` for a propagated exception. -/
def downloadRun (files : List String) (url : String) (output_dir : Option String)
    (filename : Option String) (fetchOk : Bool) (leftoverOnFailure : Bool) :
    List String × Bool × Option String :=
  let output_path := download_output_path url output_dir filename
  if files.contains output_path then (files, false, some output_path)
  else if fetchOk then (output_path :: files, true, some output_path)
  else
    let files1 := if leftoverOnFailure then output_path :: files else files
    let files2 :=
      if files1.contains output_path then files1.filter (fun f => f != output_path)
      else files1
    (files2, true, none)

end MsquicBuild

namespace MsquicBuild

theorem findChar_eq_none {l : List Char} :
    findChar '/' l = none ↔ '/' ∉ l := by
  induction l with
  | nil => simp [findChar]
  | cons a l ih =>
    by_cases h : a = '/'
    · subst h; simp [findChar]
    · have hb : (a == '/') = false := beq_eq_false_iff_ne.mpr h
      simp [findChar, hb, ih, List.mem_cons, Ne.symm h]

theorem take_findChar {l : List Char} {n : Nat}
    (h : findChar '/' l = some n) :
    l.take n = l.takeWhile (fun c => c != '/') := by
  induction l generalizing n with
  | nil => simp [findChar] at h
  | cons a l ih =>
    by_cases ha : a = '/'
    · subst ha
      simp [findChar] at h
      subst h
      simp [List.takeWhile_cons]
    · have hb : (a == '/') = false := beq_eq_false_iff_ne.mpr ha
      simp [findChar, hb] at h
      obtain ⟨m, hm, rfl⟩ := h
      simp [List.takeWhile_cons, hb, ha, List.take_succ_cons, ih hm]

theorem takeWhile_slash_of_not_mem {l : List Char} (h : '/' ∉ l) :
    l.takeWhile (fun c => c != '/') = l := by
  induction l with
  | nil => rfl
  | cons a l ih =>
    have ha : a ≠ '/' := fun hh => h (hh ▸ List.mem_cons_self a l)
    have hb : (a != '/') = true := by simp [ha]
    simp [List.takeWhile_cons, hb, ih (fun hm => h (List.mem_cons_of_mem a hm))]

theorem string_mk_data (s : String) : String.mk s.data = s := rfl

theorem entryDir_eq (info : Entry) :
    entryDir info =
      if isRootLevel info.filename = true then
        (if info.isDir = true then some (topSegment info.filename) else none)
      else some (topSegment info.filename) := by
  unfold entryDir topSegment isRootLevel
  cases hf : findChar '/' (rstripSlashes info.filename).data with
  | none =>
    have hm : '/' ∉ (rstripSlashes info.filename).data := findChar_eq_none.mp hf
    simp [hf, hm, takeWhile_slash_of_not_mem hm, string_mk_data]
  | some n =>
    have hm : ¬ ('/' ∉ (rstripSlashes info.filename).data) := by
      intro hmm
      rw [findChar_eq_none.mpr hmm] at hf
      exact Option.noConfusion hf
    simp [hf, hm, take_findChar hf]

theorem isSingleDirAux_some_eq {l : List Entry} {d0 d : String} :
    isSingleDirAux (some d0) l = some d ↔ d = d0 ∧ ∀ e ∈ l, entryDir e = some d0 := by
  induction l generalizing d0 with
  | nil => simp [isSingleDirAux, eq_comm]
  | cons info rest ih =>
    cases he : entryDir info with
    | none => simp [isSingleDirAux, he]
    | some dd =>
      by_cases hdd : d0 = dd
      · subst hdd
        simp [isSingleDirAux, he, ih]
      · have hdd2 : dd ≠ d0 := fun h => hdd h.symm
        have hcond : (some d0 ≠ none ∧ some d0 ≠ some dd) := by simp [hdd]
        simp [isSingleDirAux, he, hcond, Option.some.injEq]
        tauto

theorem is_single_dir_eq_some {l : List Entry} {d : String} :
    is_single_dir l = some d ↔ l ≠ [] ∧ ∀ e ∈ l, entryDir e = some d := by
  cases l with
  | nil => simp [is_single_dir, isSingleDirAux]
  | cons info rest =>
    cases he : entryDir info with
    | none =>
      simp only [is_single_dir, isSingleDirAux, he]
      constructor
      · intro h
        exact absurd h (by simp)
      · rintro ⟨-, hall⟩
        have h1 := hall info (List.mem_cons_self _ _)
        rw [he] at h1
        exact absurd h1 (by simp)
    | some dd =>
      have hstep : isSingleDirAux none (info :: rest) = isSingleDirAux (some dd) rest := by
        simp [isSingleDirAux, he]
      constructor
      · intro h
        rw [is_single_dir, hstep] at h
        obtain ⟨rfl, hrest⟩ := isSingleDirAux_some_eq.mp h
        refine ⟨by simp, ?_⟩
        intro e hm
        rcases List.mem_cons.mp hm with rfl | hr
        · exact he
        · exact hrest e hr
      · rintro ⟨-, hall⟩
        have h1 := hall info (List.mem_cons_self _ _)
        rw [he] at h1
        have hd : dd = d := Option.some.inj h1
        subst hd
        rw [is_single_dir, hstep]
        exact isSingleDirAux_some_eq.mpr ⟨rfl, fun e hr => hall e (List.mem_cons_of_mem _ hr)⟩

end MsquicBuild

namespace MsquicBuild

/-- Claim C1: for every archive (tar or zip) whose entries all share a
single top-level directory `d`, root detection (`_is_single_dir`) returns
`some d`; for every archive with two or more distinct top-level path
segments it returns `none`; an entry sitting directly at the root is
compatible with single-rootedness only if it is itself a directory (a bare
file at the root yields `none`); and an empty entry list yields `none`. -/
theorem is_single_dir_spec (entries : List Entry) (d : String) :
    ((entries ≠ [] ∧ ∀ e ∈ entries,
        topSegment e.filename = d ∧ (isRootLevel e.filename = true → e.isDir = true)) →
      is_single_dir entries = some d)
    ∧ ((∃ e1 ∈ entries, ∃ e2 ∈ entries,
          topSegment e1.filename ≠ topSegment e2.filename) →
      is_single_dir entries = none)
    ∧ ((∃ e ∈ entries, isRootLevel e.filename = true ∧ e.isDir = false) →
      is_single_dir entries = none)
    ∧ is_single_dir ([] : List Entry) = none := by
  have hval : ∀ e : Entry, ∀ x, entryDir e = some x → x = topSegment e.filename := by
    intro e x hx
    rw [entryDir_eq] at hx
    by_cases hr : isRootLevel e.filename = true
    · rw [if_pos hr] at hx
      by_cases hd : e.isDir = true
      · rw [if_pos hd] at hx; exact (Option.some.inj hx).symm
      · rw [if_neg hd] at hx; exact absurd hx (by simp)
    · rw [if_neg hr] at hx; exact (Option.some.inj hx).symm
  refine ⟨?_, ?_, ?_, rfl⟩
  · rintro ⟨hne, hall⟩
    refine is_single_dir_eq_some.mpr ⟨hne, ?_⟩
    intro e he
    obtain ⟨hseg, hroot⟩ := hall e he
    rw [entryDir_eq]
    by_cases hr : isRootLevel e.filename = true
    · rw [if_pos hr, if_pos (hroot hr), hseg]
    · rw [if_neg hr, hseg]
  · rintro ⟨e1, he1, e2, he2, hne⟩
    cases hres : is_single_dir entries with
    | none => rfl
    | some dd =>
      obtain ⟨-, hall⟩ := is_single_dir_eq_some.mp hres
      have h1 := hval e1 dd (hall e1 he1)
      have h2 := hval e2 dd (hall e2 he2)
      exact absurd (h1 ▸ h2) hne
  · rintro ⟨e, he, hroot, hfile⟩
    cases hres : is_single_dir entries with
    | none => rfl
    | some dd =>
      obtain ⟨-, hall⟩ := is_single_dir_eq_some.mp hres
      have := hall e he
      rw [entryDir_eq, if_pos hroot, if_neg (by simp [hfile])] at this
      exact absurd this (by simp)

/-- Witness for C1 at a concrete single-rooted archive. -/
theorem is_single_dir_spec_witness :
    is_single_dir [⟨"d", true, 0, ""⟩, ⟨"d/a.txt", false, 0, "A"⟩, ⟨"d/b.txt", false, 0, "B"⟩]
      = some "d" :=
  (is_single_dir_spec [⟨"d", true, 0, ""⟩, ⟨"d/a.txt", false, 0, "A"⟩, ⟨"d/b.txt", false, 0, "B"⟩] "d").1
    (by decide)

end MsquicBuild

namespace MsquicBuild

theorem lookupFS_insertFS (fs : FS) (p : Path) (v : Node) :
    lookupFS (insertFS fs p v) p = some v := by
  simp [lookupFS, insertFS, List.find?]

theorem lookupFS_eraseKeyFS (fs : FS) (p : Path) :
    lookupFS (eraseKeyFS fs p) p = none := by
  induction fs with
  | nil => rfl
  | cons kv rest ih =>
    by_cases h : kv.1 = p
    · simp only [eraseKeyFS, List.filter_cons, h] at *
      simp only [bne_self_eq_false, Bool.false_eq_true, if_false]
      exact ih
    · have hb : (kv.1 != p) = true := by simp [h]
      have hb2 : (kv.1 == p) = false := by simp [h]
      simp only [eraseKeyFS, List.filter_cons, hb, if_pos] at *
      simp only [lookupFS, List.find?, hb2] at *
      exact ih

theorem existsFS_of_lookup_none {fs : FS} {p : Path}
    (h : lookupFS fs p = none) : existsFS fs p = false := by
  simp [existsFS, resolveLink, h]

theorem lookupFS_cons (x : Path × Node) (l : FS) (q : Path) :
    lookupFS (x :: l) q = if x.1 == q then some x.2 else lookupFS l q := by
  by_cases h : x.1 = q
  · simp [lookupFS, h]
  · have hb : (x.1 == q) = false := by simp [h]
    simp [lookupFS, hb]

theorem lookupFS_map_chmod (r : Path) (m : Nat) :
    ∀ (fs : FS) (q : Path) (s : String),
      lookupFS fs q = some (Node.symlink s) →
      lookupFS (fs.map (fun kv => if kv.1 == r then (kv.1, chmodNode kv.2 m) else kv)) q
        = some (Node.symlink s) := by
  intro fs
  induction fs with
  | nil => intro q s h; exact absurd h (by simp [lookupFS])
  | cons kv rest ih =>
    intro q s h
    rw [lookupFS_cons] at h
    rw [List.map_cons, lookupFS_cons]
    by_cases hq : kv.1 = q
    · have hb : (kv.1 == q) = true := by simp [hq]
      rw [hb] at h
      simp only [if_pos] at h
      have hv : kv.2 = Node.symlink s := Option.some.inj h
      cases hc : kv.1 == r
      · simp [hc, hb, hv]
      · simp [hc, hb, hv, chmodNode]
    · have hb : (kv.1 == q) = false := by simp [hq]
      rw [hb] at h
      simp only [Bool.false_eq_true, if_false] at h
      cases hc : kv.1 == r
      · simp only [hc, Bool.false_eq_true, if_false, hb]
        exact ih q s h
      · simp only [hc, if_pos]
        simp only [hb, Bool.false_eq_true, if_false]
        exact ih q s h

theorem lookupFS_chmodFS_symlink {fs : FS} {q : Path} {s : String}
    (p : Path) (m : Nat)
    (h : lookupFS fs q = some (Node.symlink s)) :
    lookupFS (chmodFS fs p m) q = some (Node.symlink s) := by
  unfold chmodFS
  cases resolveLink fs (fs.length + 1) p with
  | none => exact h
  | some r => exact lookupFS_map_chmod r m fs q s h

end MsquicBuild

namespace MsquicBuild

/-- Claim C5: on a non-Windows target, for every zip archive entry that is a
non-directory whose stored file mode marks it as a symbolic link
(`(external_attr >> 16) & 0o120000 == 0o120000`) and whose stored content
(the extracted placeholder file) names a target that exists once the
placeholder is removed (resolved relative to the entry's directory), the
`_extractzip` post-processing step leaves an actual symbolic-link node at
the entry's path pointing at that target — not a regular file containing
the target path string. -/
theorem extractzip_symlink_created (fs : FS) (base : Path) (info : Entry)
    (src : String) (m : Nat)
    (hdir : info.isDir = false)
    (hflag : (info.externalAttr >>> 16) &&& 0o120000 = 0o120000)
    (hlook : lookupFS fs (base ++ toSegs info.filename) = some (Node.file src m))
    (hex : existsFS (eraseKeyFS fs (base ++ toSegs info.filename))
        (resolveRel (base ++ toSegs info.filename).dropLast src) = true) :
    lookupFS (processEntry base fs info) (base ++ toSegs info.filename)
      = some (Node.symlink src) := by
  unfold processEntry
  rw [hdir]
  simp only [Bool.false_eq_true, if_false, hflag, beq_self_eq_true, if_pos, hlook, hex,
    if_true]
  set fp := base ++ toSegs info.filename with hfp
  set fs1 := insertFS (eraseKeyFS fs fp) fp (Node.symlink src) with hfs1
  have hins : lookupFS fs1 fp = some (Node.symlink src) := lookupFS_insertFS _ _ _
  cases hE : existsFS fs1 fp
  · simp only [Bool.false_eq_true, if_false]
    exact hins
  · simp only [if_pos]
    exact lookupFS_chmodFS_symlink fp ((info.externalAttr >>> 16) &&& 0o777) hins

/-- Witness for C5: a zip entry `lnk` flagged as a symlink whose placeholder
content names the sibling `a.txt`. -/
theorem extractzip_symlink_created_witness :
    lookupFS
      (processEntry ["out"]
        [(["out", "a.txt"], Node.file "hello" 0), (["out", "lnk"], Node.file "a.txt" 0)]
        ⟨"lnk", false, 0o120777 <<< 16, "a.txt"⟩)
      (["out"] ++ toSegs "lnk")
      = some (Node.symlink "a.txt") :=
  extractzip_symlink_created
    [(["out", "a.txt"], Node.file "hello" 0), (["out", "lnk"], Node.file "a.txt" 0)]
    ["out"] ⟨"lnk", false, 0o120777 <<< 16, "a.txt"⟩ "a.txt" 0
    (by decide) (by decide) (by decide) (by decide)

/-- Claim C10: on a non-Windows target, for every zip archive entry that is
a non-directory flagged as a symbolic link whose stored content names a
target that does not exist (resolved relative to the entry's directory,
after the placeholder is removed), the `_extractzip` post-processing step
leaves nothing at the entry's path: the placeholder is deleted, no symbolic
link is created, and no permission bits are applied. -/
theorem extractzip_dangling_symlink_removed (fs : FS) (base : Path) (info : Entry)
    (src : String) (m : Nat)
    (hdir : info.isDir = false)
    (hflag : (info.externalAttr >>> 16) &&& 0o120000 = 0o120000)
    (hlook : lookupFS fs (base ++ toSegs info.filename) = some (Node.file src m))
    (hex : existsFS (eraseKeyFS fs (base ++ toSegs info.filename))
        (resolveRel (base ++ toSegs info.filename).dropLast src) = false) :
    lookupFS (processEntry base fs info) (base ++ toSegs info.filename) = none := by
  unfold processEntry
  rw [hdir]
  simp only [Bool.false_eq_true, if_false, hflag, beq_self_eq_true, if_pos, hlook, hex]
  set fp := base ++ toSegs info.filename with hfp
  have herase : lookupFS (eraseKeyFS fs fp) fp = none := lookupFS_eraseKeyFS _ _
  rw [existsFS_of_lookup_none herase]
  simp only [Bool.false_eq_true, if_false]
  exact herase

/-- Witness for C10: the symlink-flagged entry `lnk` names `gone.txt`, which
does not exist. -/
theorem extractzip_dangling_symlink_removed_witness :
    lookupFS
      (processEntry ["out"] [(["out", "lnk"], Node.file "gone.txt" 0)]
        ⟨"lnk", false, 0o120777 <<< 16, "gone.txt"⟩)
      (["out"] ++ toSegs "lnk") = none :=
  extractzip_dangling_symlink_removed [(["out", "lnk"], Node.file "gone.txt" 0)]
    ["out"] ⟨"lnk", false, 0o120777 <<< 16, "gone.txt"⟩ "gone.txt" 0
    (by decide) (by decide) (by decide) (by decide)

end MsquicBuild

namespace MsquicBuild

/-- Counterexample to claim C2: for the archive `d/`, `d/a.txt`, `d/b.txt`,
`LICENSE`, `extract(archive, out, "name")` does not produce any of the
claimed paths `out/name/a.txt`, `out/name/b.txt`, `out/LICENSE`. -/
theorem extract_loose_root_counterexample :
    lookupFS
        (extract ([] : FS) "x.tar.gz" none
          [⟨"d", true, 0, ""⟩, ⟨"d/a.txt", false, 0, "A"⟩,
           ⟨"d/b.txt", false, 0, "B"⟩, ⟨"LICENSE", false, 0, "L"⟩]
          ["out"] "name").1
        ["out", "name", "a.txt"] = none
    ∧ lookupFS
        (extract ([] : FS) "x.tar.gz" none
          [⟨"d", true, 0, ""⟩, ⟨"d/a.txt", false, 0, "A"⟩,
           ⟨"d/b.txt", false, 0, "B"⟩, ⟨"LICENSE", false, 0, "L"⟩]
          ["out"] "name").1
        ["out", "name", "b.txt"] = none
    ∧ lookupFS
        (extract ([] : FS) "x.tar.gz" none
          [⟨"d", true, 0, ""⟩, ⟨"d/a.txt", false, 0, "A"⟩,
           ⟨"d/b.txt", false, 0, "B"⟩, ⟨"LICENSE", false, 0, "L"⟩]
          ["out"] "name").1
        ["out", "LICENSE"] = none := by
  decide

/-- Claim C2 as amended: for an archive containing `d/`, `d/a.txt`,
`d/b.txt` and a root-level `LICENSE` file, the bare root file disqualifies
single-rootedness, so `extract(archive, out, "name")` extracts everything
verbatim under `out/name`, producing `out/name/d/a.txt`, `out/name/d/b.txt`
and `out/name/LICENSE`; the loose root-level file IS nested under `name`. -/
theorem extract_loose_root_file :
    lookupFS
        (extract ([] : FS) "x.tar.gz" none
          [⟨"d", true, 0, ""⟩, ⟨"d/a.txt", false, 0, "A"⟩,
           ⟨"d/b.txt", false, 0, "B"⟩, ⟨"LICENSE", false, 0, "L"⟩]
          ["out"] "name").1
        ["out", "name", "d", "a.txt"] = some (Node.file "A" 0)
    ∧ lookupFS
        (extract ([] : FS) "x.tar.gz" none
          [⟨"d", true, 0, ""⟩, ⟨"d/a.txt", false, 0, "A"⟩,
           ⟨"d/b.txt", false, 0, "B"⟩, ⟨"LICENSE", false, 0, "L"⟩]
          ["out"] "name").1
        ["out", "name", "d", "b.txt"] = some (Node.file "B" 0)
    ∧ lookupFS
        (extract ([] : FS) "x.tar.gz" none
          [⟨"d", true, 0, ""⟩, ⟨"d/a.txt", false, 0, "A"⟩,
           ⟨"d/b.txt", false, 0, "B"⟩, ⟨"LICENSE", false, 0, "L"⟩]
          ["out"] "name").1
        ["out", "name", "LICENSE"] = some (Node.file "L" 0)
    ∧ (extract ([] : FS) "x.tar.gz" none
          [⟨"d", true, 0, ""⟩, ⟨"d/a.txt", false, 0, "A"⟩,
           ⟨"d/b.txt", false, 0, "B"⟩, ⟨"LICENSE", false, 0, "L"⟩]
          ["out"] "name").2 = none := by
  decide

/-- Claim C8: when the explicit format hint is neither the tar+gzip nor the
zip variant and the filename ends with neither `.tar.gz` nor `.zip`,
`extract` raises the fatal unsupported-format error and the filesystem —
in particular the destination `outputDir/outputName` — is left unchanged. -/
theorem extract_unsupported_format (fs : FS) (file : String)
    (filetype : Option String) (entries : List Entry) (output_dir : Path)
    (output_dirname : String)
    (h1 : filetype ≠ some "gzip") (h2 : filetype ≠ some "zip")
    (h3 : pyEndsWith file ".tar.gz" = false) (h4 : pyEndsWith file ".zip" = false) :
    extract fs file filetype entries output_dir output_dirname
      = (fs, some "file should end with .tar.gz or .zip") := by
  have hb1 : (filetype == some "gzip") = false := beq_eq_false_iff_ne.mpr h1
  have hb2 : (filetype == some "zip") = false := beq_eq_false_iff_ne.mpr h2
  simp [extract, hb1, hb2, h3, h4]

/-- Witness for C8: a `.rar` file with no format hint. -/
theorem extract_unsupported_format_witness :
    extract ([(["keep"], Node.dir)] : FS) "archive.rar" none [] ["out"] "name"
      = ([(["keep"], Node.dir)], some "file should end with .tar.gz or .zip") :=
  extract_unsupported_format [(["keep"], Node.dir)] "archive.rar" none [] ["out"] "name"
    (by decide) (by decide) (by decide) (by decide)

end MsquicBuild

namespace MsquicBuild

/-- Claim C3: when the marker file exists and its trimmed contents equal
the trimmed version string (and no forced invalidation is requested, per
the spec scenario `run(..., false, fn)`), the wrapped step is not invoked
and the marker is left unchanged; consequently two consecutive calls with
the same version string invoke the step exactly once — on the first call
only, which writes the (untrimmed) version to the marker. -/
theorem versioned_skip_and_once (E R : Type) (v m : String) (s s2 : Except E R)
    (r : R) (h : pyStrip m = pyStrip v) :
    versionedRun v (some m) false s = (some m, false, none)
    ∧ versionedRun v (none : Option String) false (Except.ok r : Except E R)
        = (some v, true, some (Except.ok r))
    ∧ versionedRun v (some v) false s2 = (some v, false, none) := by
  refine ⟨?_, ?_, ?_⟩
  · simp [versionedRun, h]
  · simp [versionedRun]
  · simp [versionedRun]

/-- Witness for C3: marker `"1.0"` against version `"1.0"`. -/
theorem versioned_skip_and_once_witness :
    versionedRun "1.0" (some "1.0") false (Except.ok () : Except String Unit)
        = (some "1.0", false, none)
    ∧ versionedRun "1.0" (none : Option String) false (Except.ok () : Except String Unit)
        = (some "1.0", true, some (Except.ok ()))
    ∧ versionedRun "1.0" (some "1.0") false (Except.ok () : Except String Unit)
        = (some "1.0", false, none) :=
  versioned_skip_and_once String Unit "1.0" "1.0" (Except.ok ()) (Except.ok ()) ()
    (by decide)

/-- Claim C4: whenever the wrapped step is actually invoked and fails, the
error is propagated, the wrapper writes nothing to the marker (it keeps the
value it had when the step started: the original value, or absent when
`ignore_version` deleted it beforehand), and a subsequent identical call
invokes the step again. -/
theorem versioned_failure_no_write (E R : Type) (v : String)
    (m0 : Option String) (ign : Bool) (e : E)
    (hinv : (versionedRun v m0 ign (Except.error e : Except E R)).2.1 = true) :
    versionedRun v m0 ign (Except.error e : Except E R)
        = (if ign then none else m0, true, some (Except.error e))
    ∧ (ign = false →
        (versionedRun v m0 ign (Except.error e : Except E R)).1 = m0)
    ∧ (versionedRun v (versionedRun v m0 ign (Except.error e : Except E R)).1 ign
        (Except.error e : Except E R)).2.1 = true := by
  cases hign : ign with
  | true =>
    refine ⟨by simp [versionedRun], by simp, by simp [versionedRun]⟩
  | false =>
    cases m0 with
    | none =>
      refine ⟨by simp [versionedRun], fun _ => by simp [versionedRun], by simp [versionedRun]⟩
    | some m =>
      cases hc : (pyStrip m == pyStrip v) with
      | true =>
        rw [hign] at hinv
        simp [versionedRun, hc] at hinv
      | false =>
        refine ⟨by simp [versionedRun, hc], fun _ => by simp [versionedRun, hc],
          by simp [versionedRun, hc]⟩

/-- Witness for C4: a stale marker `"0.9"`, a failing step for version
`"1.0"`. -/
theorem versioned_failure_no_write_witness :
    versionedRun "1.0" (some "0.9") false (Except.error "boom" : Except String Unit)
        = (if false then none else some "0.9", true, some (Except.error "boom"))
    ∧ (false = false →
        (versionedRun "1.0" (some "0.9") false
          (Except.error "boom" : Except String Unit)).1 = some "0.9")
    ∧ (versionedRun "1.0"
        (versionedRun "1.0" (some "0.9") false
          (Except.error "boom" : Except String Unit)).1 false
        (Except.error "boom" : Except String Unit)).2.1 = true :=
  versioned_failure_no_write String Unit "1.0" (some "0.9") false "boom" (by decide)

/-- Claim C7: with `ignore_version=True` the marker file is deleted before
the check, so the call behaves exactly like a call with no marker present
and the wrapped step is always invoked, regardless of the marker's prior
existence or contents. -/
theorem versioned_force_invalidate (E R : Type) (v : String)
    (m0 : Option String) (s : Except E R) :
    versionedRun v m0 true s = versionedRun v (none : Option String) false s
    ∧ (versionedRun v m0 true s).2.1 = true := by
  cases s <;> exact ⟨by simp [versionedRun], by simp [versionedRun]⟩

end MsquicBuild

namespace MsquicBuild

/-- Claim C6: `shallowClone(url, commit, dir)` performs exactly, in order:
destructive recreation of `dir`, `git init`, registration of `url` as the
sole remote `origin`, a depth-1 fetch of the single `commit` object, and a
hard reset of the working tree to the fetched commit; under the
spec-modelled git semantics, `dir` therefore ends up containing exactly the
tree at `commit` (objects `[commit]`, no other history), regardless of the
directory's prior contents. -/
theorem git_clone_shallow_spec (url hash : String) (dir : Path)
    (st : Option GitDir) :
    git_clone_shallow url hash dir
      = [ShellCmd.rmRf dir, ShellCmd.mkdirP dir,
         ShellCmd.git dir ["init"],
         ShellCmd.git dir ["remote", "add", "origin", url],
         ShellCmd.git dir ["fetch", "--depth=1", "origin", hash],
         ShellCmd.git dir ["reset", "--hard", "FETCH_HEAD"]]
    ∧ gitRun dir st (git_clone_shallow url hash dir)
      = some { initialized := true, remotes := [("origin", url)],
               objects := [hash], fetchHead := some hash,
               worktree := some hash } := by
  refine ⟨rfl, ?_⟩
  simp [gitRun, git_clone_shallow, gitStep, List.foldl, List.lookup]

theorem filter_bne_of_not_mem {l : List String} {a : String} (h : a ∉ l) :
    l.filter (fun f => f != a) = l := by
  induction l with
  | nil => rfl
  | cons b t ih =>
    have hb : (b != a) = true := by
      simp only [bne_iff_ne, ne_eq]
      exact fun hh => h (hh ▸ List.mem_cons_self b t)
    simp [List.filter_cons, hb, ih (fun hm => h (List.mem_cons_of_mem b hm))]

/-- Claim C9: `download` returns the computed destination path without
invoking the network fetch whenever a file already exists there; and when
the fetch fails, any half-written file at the destination is removed before
the exception propagates, leaving the file set exactly as before the call,
so a later call does not observe a poisoned already-exists state. -/
theorem download_cache_and_cleanup (files : List String) (url : String)
    (output_dir filename : Option String) (fetchOk leftover : Bool)
    (hmem : files.contains (download_output_path url output_dir filename) = true)
    (files2 : List String)
    (hmem2 : files2.contains (download_output_path url output_dir filename) = false) :
    downloadRun files url output_dir filename fetchOk leftover
        = (files, false, some (download_output_path url output_dir filename))
    ∧ downloadRun files2 url output_dir filename false leftover
        = (files2, true, none) := by
  have hmem1 : download_output_path url output_dir filename ∈ files := by
    simpa using hmem
  have hmem3 : download_output_path url output_dir filename ∉ files2 := by
    simpa using hmem2
  have hfilter := filter_bne_of_not_mem hmem3
  constructor
  · simp [downloadRun, hmem1]
  · cases hl : leftover with
    | false => simp [downloadRun, hmem3, hfilter]
    | true => simp [downloadRun, hmem3, hfilter]

/-- Witness for C9: a cached hit for `d/x.zip`, and a failed fetch with a
half-written leftover that gets cleaned up. -/
theorem download_cache_and_cleanup_witness :
    downloadRun ["d/x.zip"] "https://h/p/x.zip" (some "d") none true false
        = (["d/x.zip"], false, some (download_output_path "https://h/p/x.zip" (some "d") none))
    ∧ downloadRun [] "https://h/p/x.zip" (some "d") none false true
        = ([], true, none) :=
  download_cache_and_cleanup ["d/x.zip"] "https://h/p/x.zip" (some "d") none true true
    (by decide) [] (by decide)

end MsquicBuild
